import Mathlib

/-!
Verification of the KeymapViewer parser core: a shallow embedding of
`internal/parser/keymap.go` and `internal/parser/layout.go`.

Go strings are modelled as lists of characters (`Str`); for the ASCII data
the claims are about, Go's byte-indexed operations coincide with the
character-level model.  Fallible code is modelled with `Option`/`Except`.
-/

/-- Character-list model of a Go string. -/
abbrev Str := List Char

/-- Coerce a Lean string literal into the character-list model. -/
def str (s : String) : Str := s.toList

/-- The whitespace predicate of Go's `unicode.IsSpace` (restricted to the
code points it recognises in Latin-1): space, tab, newline, vertical tab,
form feed, carriage return, NEL, NBSP. -/
def isGoSpace (c : Char) : Bool :=
  c = ' ' || c = '\t' || c = '\n' || c = Char.ofNat 11 || c = Char.ofNat 12 ||
  c = '\r' || c = Char.ofNat 0x85 || c = Char.ofNat 0xA0

/-- Go `strings.TrimSpace`. -/
def trimSpace (s : Str) : Str :=
  ((s.dropWhile isGoSpace).reverse.dropWhile isGoSpace).reverse

/-- Go `strings.ToUpper` (character-wise; adequate for ASCII inputs). -/
def toUpper (s : Str) : Str := s.map Char.toUpper

/-- Go `strings.ToLower` (character-wise; adequate for ASCII inputs). -/
def toLower (s : Str) : Str := s.map Char.toLower

/-- Go `strings.HasPrefix pre s` (argument order: pattern first). -/
def listStartsWith (pre s : Str) : Bool := s.take pre.length = pre

/-- Go `strings.TrimSuffix s sfx`: drop `sfx` from the end when present. -/
def trimSuffixGo (sfx s : Str) : Str :=
  if s.drop (s.length - sfx.length) = sfx then s.take (s.length - sfx.length) else s

/-- Go `strings.Index s sub`: position of the first occurrence of `sub`. -/
def listIndexOf (sub : Str) : Str → Option Nat
  | [] => if listStartsWith sub [] then some 0 else none
  | c :: rest =>
    if listStartsWith sub (c :: rest) then some 0
    else (listIndexOf sub rest).map (· + 1)

/-- Accumulating scanner behind `fields`: `w` is the word being built,
in reverse character order. -/
def fieldsAux : Str → Option Str → List Str
  | [], none => []
  | [], some w => [w.reverse]
  | c :: rest, none =>
    if isGoSpace c then fieldsAux rest none else fieldsAux rest (some [c])
  | c :: rest, some w =>
    if isGoSpace c then w.reverse :: fieldsAux rest none
    else fieldsAux rest (some (c :: w))

/-- Go `strings.Fields`: split around runs of whitespace, no empty words. -/
def fields (s : Str) : List Str := fieldsAux s none

/-- Go `strings.Split s "_"` specialised to a single separator character:
the separators are removed and the pieces (possibly empty) are returned. -/
def splitChar (sep : Char) : Str → List Str
  | [] => [[]]
  | c :: rest =>
    match splitChar sep rest with
    | [] => if c = sep then [[], []] else [[c]]
    | w :: ws => if c = sep then [] :: w :: ws else (c :: w) :: ws

/-! ## Key-code formatter (`formatKey` in keymap.go) -/

/-- The two-letter modifier codes accepted by the modifier-wrapper regex
`(L[SACG]|R[SACG]|LC|LA|LG|LS)` in `formatKey`. -/
inductive ModCode
  | LS | RS | LC | RC | LA | RA | LG | RG
deriving DecidableEq, Repr

/-- The two characters spelling a modifier code. -/
def modChars : ModCode → Str
  | .LS => ['L', 'S'] | .RS => ['R', 'S']
  | .LC => ['L', 'C'] | .RC => ['R', 'C']
  | .LA => ['L', 'A'] | .RA => ['R', 'A']
  | .LG => ['L', 'G'] | .RG => ['R', 'G']

/-- Recognise a two-character modifier code (the character class of the
regex alternation in `formatKey`). -/
def modOfChars (a b : Char) : Option ModCode :=
  if a = 'L' then
    if b = 'S' then some .LS else if b = 'C' then some .LC
    else if b = 'A' then some .LA else if b = 'G' then some .LG else none
  else if a = 'R' then
    if b = 'S' then some .RS else if b = 'C' then some .RC
    else if b = 'A' then some .RA else if b = 'G' then some .RG else none
  else none

/-- The label tag the `switch mod` in `formatKey` puts in front of the
recursively formatted inner code: left and right variants collapse. -/
def modPrefixTag : ModCode → Str
  | .LS | .RS => str "S-"
  | .LC | .RC => str "C-"
  | .LA | .RA => str "A-"
  | .LG | .RG => str "G-"

/-- The anchored match of Go's `^(L[SACG]|R[SACG]|LC|LA|LG|LS)\((.+)\)$`
against `s`: the whole string must be a two-letter modifier code, `(`,
a non-empty newline-free middle (`.` does not match `\n` in Go), `)`.
Returns the modifier and the captured middle. -/
def modMatch (s : Str) : Option (ModCode × Str) :=
  match s with
  | a :: b :: c :: rest =>
    if c = '(' then
      match modOfChars a b, rest.getLast? with
      | some m, some d =>
        if d = ')' then
          let mid := rest.dropLast
          if 0 < mid.length ∧ mid.all (fun x => x ≠ '\n') then some (m, mid)
          else none
        else none
      | _, _ => none
    else none
  | _ => none

/-- The key-code abbreviation table `keyMap` of `formatKey`, transcribed
entry for entry. -/
def keyMap : List (Str × Str) :=
  [ (str "SPACE", str "SPC"), (str "ENTER", str "ENT"), (str "RETURN", str "RET"),
    (str "BACKSPACE", str "BSPC"), (str "BSPC", str "BSPC"), (str "TAB", str "TAB"),
    (str "ESC", str "ESC"), (str "ESCAPE", str "ESC"), (str "DELETE", str "DEL"),
    (str "DEL", str "DEL"), (str "INSERT", str "INS"), (str "HOME", str "HOME"),
    (str "END", str "END"), (str "PAGE_UP", str "PGUP"), (str "PG_UP", str "PGUP"),
    (str "PAGE_DOWN", str "PGDN"), (str "PG_DN", str "PGDN"), (str "UP", str "↑"),
    (str "DOWN", str "↓"), (str "LEFT", str "←"), (str "RIGHT", str "→"),
    (str "LSHIFT", str "SHFT"), (str "RSHIFT", str "SHFT"), (str "LSHFT", str "SHFT"),
    (str "LEFT_SHIFT", str "SHFT"), (str "LCTRL", str "CTRL"), (str "RCTRL", str "CTRL"),
    (str "LEFT_CONTROL", str "CTRL"), (str "LALT", str "ALT"), (str "RALT", str "ALT"),
    (str "LGUI", str "GUI"), (str "RGUI", str "GUI"), (str "GRAVE", str "\x60"),
    (str "MINUS", str "-"), (str "EQUAL", str "="), (str "LBKT", str "["),
    (str "RBKT", str "]"), (str "LBRC", str "\x7b"), (str "RBRC", str "\x7d"),
    (str "BSLH", str "\\"), (str "SEMI", str ";"), (str "SQT", str "\x27"),
    (str "COMMA", str ","), (str "DOT", str "."), (str "SLASH", str "/"),
    (str "FSLH", str "/"), (str "CAPS", str "CAPS"), (str "CAPSLOCK", str "CAPS"),
    (str "PSCRN", str "PSCR"), (str "SLCK", str "SLCK"), (str "PAUSE_BREAK", str "PAUS"),
    (str "LPAR", str "("), (str "RPAR", str ")"), (str "C_VOL_UP", str "V+"),
    (str "C_VOL_DN", str "V-"), (str "C_MUTE", str "MUTE"),
    (str "C_PLAY_PAUSE", str "▶⏸"), (str "C_NEXT", str "⏭"), (str "C_PREV", str "⏮") ]

/-- The non-modifier part of `formatKey`: number-key branch, function-key
branch, table lookup, and the return-as-is-or-truncate fallback, in the
order the Go code performs them. -/
def formatKeyBase (key : Str) : Str :=
  if key.take 1 = ['N'] ∧ key.length = 2 then key.drop 1
  else if key.take 1 = ['F'] ∧ key.length ≤ 3 then key
  else
    match List.lookup key keyMap with
    | some v => v
    | none => if key.length ≤ 4 then key else key.take 4

/-- Fuel-indexed body of `formatKey`; the recursion consumes the wrapper
recognised by `modMatch`, which strips four characters per step, so fuel
`key.length` always suffices. -/
def formatKeyFuel : Nat → Str → Str
  | 0, key => formatKeyBase key
  | n + 1, key =>
    match modMatch key with
    | some (m, inner) => modPrefixTag m ++ formatKeyFuel n inner
    | none => formatKeyBase key

/-- `formatKey` of keymap.go. -/
def formatKey (key : Str) : Str := formatKeyFuel key.length key

/-! ## Layer-reference shortener (`formatLayerShort`) -/

/-- `formatLayerShort` of keymap.go: the `switch strings.ToUpper(layer)`
with its default branch. -/
def formatLayerShort (layer : Str) : Str :=
  if toUpper layer = str "DEFAULT" ∨ toUpper layer = str "0" then str "D"
  else if toUpper layer = str "LOWER" ∨ toUpper layer = str "1" then str "L"
  else if toUpper layer = str "RAISE" ∨ toUpper layer = str "2" then str "R"
  else if toUpper layer = str "FN" ∨ toUpper layer = str "3" then str "F"
  else if toUpper layer = str "SYSTEM" ∨ toUpper layer = str "4" then str "S"
  else if 0 < layer.length then toUpper (layer.take 1)
  else str "?"

/-! ## Layer-name formatter (`formatLayerName`) -/

/-- Title-casing of one word as the loop body of `formatLayerName` does it:
`strings.ToUpper(w[:1]) + strings.ToLower(w[1:])` for a non-empty word. -/
def titleGo (w : Str) : Str :=
  if 0 < w.length then toUpper (w.take 1) ++ toLower (w.drop 1) else w

/-- `formatLayerName` of keymap.go: strip a trailing `_layer`, split on
`_`, title-case the words, join with single spaces. -/
def formatLayerName (name : Str) : Str :=
  let base := trimSuffixGo (str "_layer") name
  List.intercalate (str " ") ((splitChar '_' base).map titleGo)

/-! ## Binding-label converter (`convertBinding`) -/

/-- The word-character class `\w` of Go's regexp: `[0-9A-Za-z_]`. -/
def isWordChar (c : Char) : Bool :=
  ('0' ≤ c ∧ c ≤ '9') ∨ ('A' ≤ c ∧ c ≤ 'Z') ∨ ('a' ≤ c ∧ c ≤ 'z') ∨ c = '_'

/-- The fallback of `convertBinding`: the leftmost match of `&(\w+)` in the
binding, returning the captured identifier. -/
def extractBindingName : Str → Option Str
  | [] => none
  | c :: rest =>
    if c = '&' then
      let w := rest.takeWhile isWordChar
      if w.length = 0 then extractBindingName rest else some w
    else extractBindingName rest

/-- `convertBinding` of keymap.go: the rule-priority chain from the exact
literals through the prefix families down to the upper-cased-identifier
fallback.  The inner `len(parts)` guards of the Go code are flattened into
the branch conditions; a failed guard falls through to the next branch in
both versions.  In the `&kp` branch the Go code indexes `Fields(key)[0]`;
the empty-fields case is unreachable there because the binding is trimmed,
so it is mapped to the empty label. -/
def convertBinding (binding : Str) : Str :=
  let b := trimSpace binding
  if b = str "&trans" then str "▽"
  else if b = str "&none" then []
  else if listStartsWith (str "&kp ") b then
    match fields (b.drop (str "&kp ").length) with
    | f :: _ => formatKey f
    | [] => []
  else if listStartsWith (str "&lt ") b ∧ 3 ≤ (fields b).length then
    formatKey ((fields b).getD 2 []) ++ str "/" ++ formatLayerShort ((fields b).getD 1 [])
  else if listStartsWith (str "&mo ") b ∧ 2 ≤ (fields b).length then
    str "[" ++ formatLayerShort ((fields b).getD 1 []) ++ str "]"
  else if listStartsWith (str "&hrm ") b ∧ 3 ≤ (fields b).length then
    formatKey ((fields b).getD 2 [])
  else if listStartsWith (str "&bt ") b then
    match fields b with
    | _ :: cmd :: rest =>
      if listStartsWith (str "BT_SEL") cmd ∧ 1 ≤ rest.length then str "BT" ++ rest.getD 0 []
      else if cmd = str "BT_CLR" then str "BT CLR"
      else str "BT"
    | _ => str "BT"
  else if listStartsWith (str "&bootloader") b then str "BOOT"
  else if listStartsWith (str "&caps_word") b then str "CAPS"
  else if listStartsWith (str "&leader") b then str "LDR"
  else if listStartsWith (str "&bl ") b then str "BL"
  else if listStartsWith (str "&studio") b then str "STUDIO"
  else
    match extractBindingName b with
    | some w => toUpper (w.take 4)
    | none => str "?"

/-! ## Binding tokenizer (`tokenize`) -/

/-- The whitespace class `\s` of Go's regexp: `[\t\n\f\r ]`. -/
def isSpaceRe (c : Char) : Bool :=
  c = '\t' || c = '\n' || c = Char.ofNat 12 || c = '\r' || c = ' '

/-- Length of the leftmost-anchored match of `&(\w+)(?:\s*\([^)]*\))?`
when the text starts at a candidate position: a `&` followed by at least
one word character, then optionally spaces, `(`, non-`)` characters and a
closing `)`; when the optional group cannot complete it matches empty. -/
def matchLen (l : Str) : Option Nat :=
  match l with
  | c :: rest =>
    if c = '&' then
      let w := (rest.takeWhile isWordChar).length
      if w = 0 then none
      else
        let afterWord := rest.drop w
        let sp := (afterWord.takeWhile isSpaceRe).length
        match afterWord.drop sp with
        | c2 :: r2 =>
          if c2 = '(' then
            let nb := (r2.takeWhile (fun x => x ≠ ')')).length
            match r2.drop nb with
            | _ :: _ => some (1 + w + sp + 1 + nb + 1)
            | [] => some (1 + w)
          else some (1 + w)
        | [] => some (1 + w)
    else none
  | [] => none

/-- Successive non-overlapping leftmost matches of the binding regex, as
`FindAllStringSubmatchIndex` produces them: `i` is the index of the head
of `l` in the scanned text, and the result pairs are (start, end) indexes.
The fuel is an upper bound on the scan steps; `l.length` suffices since
every step consumes at least one character. -/
def scanBindings : Nat → Nat → Str → List (Nat × Nat)
  | 0, _, _ => []
  | n + 1, i, l =>
    match l with
    | [] => []
    | c :: rest =>
      match matchLen (c :: rest) with
      | some len => (i, i + len) :: scanBindings n (i + len) ((c :: rest).drop len)
      | none => scanBindings n (i + 1) rest

/-- The span-to-label loop of `tokenize`: binding `i` runs from its own
match start to the start of match `i+1` (or to the end of the text). -/
def spansToTokens (content : Str) : List (Nat × Nat) → List Str
  | [] => []
  | (s, _) :: rest =>
    let e := match rest with
             | (s2, _) :: _ => s2
             | [] => content.length
    convertBinding (trimSpace ((content.drop s).take (e - s))) :: spansToTokens content rest

/-- `tokenize` of keymap.go. -/
def tokenize (content : Str) : List Str :=
  let c := trimSpace content
  spansToTokens c (scanBindings c.length 0 c)

/-- `parseKeysFlat` of keymap.go: newlines and tabs become spaces, then
the result is tokenized. -/
def parseKeysFlat (content : Str) : List Str :=
  tokenize (content.map (fun c => if c = '\n' then ' ' else if c = '\t' then ' ' else c))

/-! ## Layer-macro extractor (`ParseKeymap`) -/

/-- The `Layer` struct of keymap.go; the empty `CustomNames` map is a list
of entries. -/
structure Layer where
  name : Str
  keys : List Str
  customNames : List (Str × Str)
deriving DecidableEq, Repr

/-- The `Keymap` struct of keymap.go (the optional embedded layout plays
no role in parsing and is omitted). -/
structure Keymap where
  name : Str
  layers : List Layer
deriving DecidableEq, Repr

/-- `findMatchingParen` body: scan `l` (the text after the opening paren,
whose first character has index `i`) with the depth counter. -/
def fmpAux : Str → Nat → Nat → Option Nat
  | [], _, _ => none
  | c :: rest, i, depth =>
    if c = '(' then fmpAux rest (i + 1) (depth + 1)
    else if c = ')' then
      if depth = 1 then some i else fmpAux rest (i + 1) (depth - 1)
    else fmpAux rest (i + 1) depth

/-- `findMatchingParen` of keymap.go: `none` models the `-1` result. -/
def findMatchingParen (s : Str) (startIdx : Nat) : Option Nat :=
  if startIdx < s.length ∧ (s.drop startIdx).take 1 = ['('] then
    fmpAux (s.drop (startIdx + 1)) (startIdx + 1) 1
  else none

/-- The scan loop of `ParseKeymap`.  The cursor `idx` strictly increases
on every iteration, so fuel `content.length + 2` always suffices. -/
def parseLoop : Nat → Str → Nat → List Layer → List Layer
  | 0, _, _, acc => acc
  | n + 1, content, idx, acc =>
    match listIndexOf (str "ZMK_LAYER") (content.drop idx) with
    | none => acc
    | some s0 =>
      let start := s0 + idx
      match listIndexOf (str "(") (content.drop start) with
      | none => acc
      | some p0 =>
        let parenStart := p0 + start
        match findMatchingParen content parenStart with
        | none => parseLoop n content (parenStart + 1) acc
        | some parenEnd =>
          let inner := (content.drop (parenStart + 1)).take (parenEnd - (parenStart + 1))
          match listIndexOf (str ",") inner with
          | none => parseLoop n content (parenEnd + 1) acc
          | some commaIdx =>
            let layerName := trimSpace (inner.take commaIdx)
            let keysContent := inner.drop (commaIdx + 1)
            parseLoop n content (parenEnd + 1)
              (acc ++ [⟨formatLayerName layerName, parseKeysFlat keysContent, []⟩])

/-- `ParseKeymap` of keymap.go.  The Go function's every return site is
`return keymap, nil`; the second component models the returned error. -/
def ParseKeymap (content name : Str) : Keymap × Option Str :=
  (⟨name, parseLoop (content.length + 2) content 0 []⟩, none)

/-! ## Layout reconstructor (`ParseKLELayout` in layout.go) -/

/-- A parsed generic JSON value, the input tree of `ParseKLELayout`.
Numbers are modelled as rationals: the claims evaluate the accumulator
only on values where Go's float64 arithmetic is exact. -/
inductive JValue
  | null
  | bool (b : Bool)
  | num (q : ℚ)
  | str (s : Str)
  | arr (items : List JValue)
  | obj (fieldList : List (Str × JValue))

/-- The `PhysicalKey` struct of layout.go. -/
structure PhysicalKey where
  x : ℚ
  y : ℚ
  w : ℚ
  h : ℚ
  r : ℚ
  rx : ℚ
  ry : ℚ
  index : Nat
deriving DecidableEq, Repr

/-- The `Layout` struct of layout.go. -/
structure Layout where
  name : Str
  keys : List PhysicalKey
deriving DecidableEq, Repr

/-- The cursor state of the reconstruction loop: `currentX` … `currentRY`
and `keyIndex` of layout.go. -/
structure KState where
  x : ℚ
  y : ℚ
  w : ℚ
  h : ℚ
  r : ℚ
  rx : ℚ
  ry : ℚ
  keyIndex : Nat
deriving DecidableEq, Repr

/-- Lookup in a Go `map[string]interface{}` that came from JSON: on
duplicate object keys `encoding/json` keeps the last one. -/
def jlookup (k : Str) : List (Str × JValue) → Option JValue
  | [] => none
  | (k2, v) :: rest =>
    match jlookup k rest with
    | some r => some r
    | none => if k2 = k then some v else none

/-- The type assertion `v[key].(float64)`: the field's value when it is a
JSON number, `none` otherwise. -/
def jlookupNum (k : Str) (fieldList : List (Str × JValue)) : Option ℚ :=
  match jlookup k fieldList with
  | some (.num q) => some q
  | _ => none

/-- One `if v[k], ok := ...; ok` block of the modifier-object branch:
when field `k` holds a JSON number, update the state with `f`, otherwise
leave it unchanged. -/
def modField (k : Str) (fieldList : List (Str × JValue))
    (f : KState → ℚ → KState) (st : KState) : KState :=
  match jlookupNum k fieldList with
  | some q => f st q
  | none => st

/-- The modifier-object branch of the item switch: `x`/`y` adjust the
cursor additively, `w`/`h`/`r` are set absolutely, `rx`/`ry` set the pivot
and reset the cursor coordinate, in the order the Go code checks them. -/
def applyMods (st : KState) (fieldList : List (Str × JValue)) : KState :=
  let st := modField (str "x") fieldList (fun st q => { st with x := st.x + q }) st
  let st := modField (str "y") fieldList (fun st q => { st with y := st.y + q }) st
  let st := modField (str "w") fieldList (fun st q => { st with w := q }) st
  let st := modField (str "h") fieldList (fun st q => { st with h := q }) st
  let st := modField (str "r") fieldList (fun st q => { st with r := q }) st
  let st := modField (str "rx") fieldList (fun st q => { st with rx := q, x := q }) st
  let st := modField (str "ry") fieldList (fun st q => { st with ry := q, y := q }) st
  st

/-- The `switch v := item.(type)` body: a modifier object updates the
state, a string emits a key (with `Y` compensated by `-1` for the
row-start increment) and advances the cursor, anything else is skipped. -/
def stepItem (p : KState × List PhysicalKey) (item : JValue) : KState × List PhysicalKey :=
  match item with
  | .obj fieldList => (applyMods p.1 fieldList, p.2)
  | .str _ =>
    let st := p.1
    let k : PhysicalKey :=
      ⟨st.x, st.y - 1, st.w, st.h, st.r, st.rx, st.ry, st.keyIndex⟩
    ({ st with x := st.x + st.w, w := 1, h := 1, keyIndex := st.keyIndex + 1 },
     p.2 ++ [k])
  | _ => p

/-- The per-row step: a non-array row is skipped with the state untouched;
an array row resets `X` to the rotation origin, increments `Y`, then folds
the items. -/
def stepRow (p : KState × List PhysicalKey) (row : JValue) : KState × List PhysicalKey :=
  match row with
  | .arr items => items.foldl stepItem ({ p.1 with x := p.1.rx, y := p.1.y + 1 }, p.2)
  | _ => p

/-- The result of `json.Unmarshal(data, &raw)` for `raw []interface{}`,
at the level of the parsed value: an array unmarshals to its items, JSON
`null` unmarshals to a nil slice, everything else is a type error. -/
def unmarshalArr : JValue → Option (List JValue)
  | .arr rows => some rows
  | .null => some []
  | _ => none

/-- Whether `json.Unmarshal` into `[]interface{}` rejects the value: a
top-level object, string, number or boolean. -/
def jsonNotArray : JValue → Bool
  | .obj _ => true
  | .str _ => true
  | .num _ => true
  | .bool _ => true
  | _ => false

/-- Whether a JSON value is an array. -/
def jIsArr : JValue → Bool
  | .arr _ => true
  | _ => false

/-- Whether a JSON value is a number. -/
def jIsNum : JValue → Bool
  | .num _ => true
  | _ => false

/-- The initial cursor state of `ParseKLELayout`. -/
def kleInitState : KState := ⟨0, 0, 1, 1, 0, 0, 0, 0⟩

/-- `ParseKLELayout` of layout.go, over the parsed JSON value. -/
def ParseKLELayout (v : JValue) (name : Str) : Except Str Layout :=
  match unmarshalArr v with
  | some rows => .ok ⟨name, (rows.foldl stepRow (kleInitState, [])).2⟩
  | none => .error (str "json: cannot unmarshal value into Go value of type array")

/-- Decidable equality for parse results, so that concrete scenarios can
be settled by evaluation. -/
instance : DecidableEq (Except Str Layout) := fun x y =>
  match x, y with
  | .ok a, .ok b =>
    if h : a = b then isTrue (by rw [h]) else isFalse (by simp [h])
  | .error a, .error b =>
    if h : a = b then isTrue (by rw [h]) else isFalse (by simp [h])
  | .ok _, .error _ => isFalse (by simp)
  | .error _, .ok _ => isFalse (by simp)

/-! ## Spec-side definitions, for the refinement claims -/

/-- The fixed table of well-known layer names/indices of spec section 4.5. -/
def layerShortTable : List (Str × Str) :=
  [ (str "DEFAULT", str "D"), (str "0", str "D"),
    (str "LOWER", str "L"), (str "1", str "L"),
    (str "RAISE", str "R"), (str "2", str "R"),
    (str "FN", str "F"), (str "3", str "F"),
    (str "SYSTEM", str "S"), (str "4", str "S") ]

/-- The layer-reference shortener as the spec words it: a case-insensitive
match against the table of well-known layer names, otherwise the
upper-cased first character of the reference, or `?` if it is empty. -/
def layerShortSpec (layer : Str) : Str :=
  match List.lookup (toUpper layer) layerShortTable with
  | some v => v
  | none =>
    match layer with
    | [] => str "?"
    | c :: _ => [c.toUpper]

/-- The layer-name transformation as the spec words it, amended only in
that an empty word stays an empty word instead of being skipped: strip a
trailing `_layer` suffix if present, split on `_`, title-case each word
(first letter upper, rest lower), rejoin with single spaces between
consecutive words. -/
def layerNameSpec (name : Str) : Str :=
  let base := if (str "_layer").isSuffixOf name then (name.reverse.drop 6).reverse else name
  let words := (splitChar '_' base).map (fun w =>
    match w with
    | [] => []
    | c :: cs => c.toUpper :: toLower cs)
  (words.intersperse (str " ")).flatten

/-- Invariant of the reconstruction loop: the running key counter equals
the number of emitted keys, and every emitted key's `index` equals its
position. -/
def keysIdxOk (p : KState × List PhysicalKey) : Prop :=
  p.1.keyIndex = p.2.length ∧ ∀ i, (h : i < p.2.length) → (p.2[i]).index = i

/-- A key code wrapped in `N` levels of modifiers, outermost first:
`wrapMods [LC, LS] inner` is the text `LC(LS(inner))`. -/
def wrapMods (ms : List ModCode) (inner : Str) : Str :=
  ms.foldr (fun m acc => modChars m ++ '(' :: (acc ++ [')'])) inner

/-! ## Theorems -/

/-- C1, claim as stated is false: tokenizing `&kp A &mo 1 &trans` does not
produce the momentary-layer label `[1]` — layer reference `1` is in the
named table of `formatLayerShort`, so the middle label is `[L]`. -/
theorem c1_tokenize_counterexample :
    tokenize (str "&kp A &mo 1 &trans") ≠ [str "A", str "[1]", str "▽"] := by
  decide

/-- C1 (amended): tokenizing the binding text `&kp A &mo 1 &trans` yields
exactly 3 labels in order: the key-code label `A`, the momentary-layer
label `[L]` — layer reference `1` is matched (case-insensitively) by the
named table of `formatLayerShort`, which maps `1` to `L` — and the
transparent glyph `▽`. -/
theorem c1_tokenize_scenario :
    tokenize (str "&kp A &mo 1 &trans") = [str "A", str "[L]", str "▽"] ∧
    formatLayerShort (str "1") = str "L" := by
  constructor
  · decide
  · decide

/-- C2: for every input string and name, `ParseKeymap` returns a `Keymap`
and a nil error; an unterminated invocation is abandoned with the scan
resuming one position past its opening parenthesis, so the Scenario D
input — `ZMK_LAYER(foo, &kp A` with no closing paren followed by a
well-formed invocation — yields exactly the one layer of the well-formed
invocation. -/
theorem c2_parse_keymap_total :
    (∀ content name, (ParseKeymap content name).2 = none) ∧
    (∀ name,
      (ParseKeymap (str "ZMK_LAYER(foo, &kp A ZMK_LAYER(bar, &kp B)") name).1.layers =
        [⟨str "Bar", [str "B"], []⟩]) := by
  constructor
  · intro content name
    rfl
  · intro name
    rfl

/-- C4: `ParseKLELayout` on the Scenario A input `[["A","B"]]` yields two
keys, index 0 at (0,0,1,1) and index 1 at (1,0,1,1); and on the Scenario B
input a `{"w":2}` modifier immediately before a key widens only that key,
the following key reverting to width 1 at the widened key's x plus 2. -/
theorem c4_layout_scenarios :
    ParseKLELayout (.arr [.arr [.str (str "A"), .str (str "B")]]) (str "demo") =
      .ok ⟨str "demo", [⟨0, 0, 1, 1, 0, 0, 0, 0⟩, ⟨1, 0, 1, 1, 0, 0, 0, 1⟩]⟩ ∧
    ParseKLELayout (.arr [.arr [.obj [(str "w", .num 2)], .str (str "A"), .str (str "B")]])
        (str "demo") =
      .ok ⟨str "demo", [⟨0, 0, 2, 1, 0, 0, 0, 0⟩, ⟨2, 0, 1, 1, 0, 0, 0, 1⟩]⟩ := by
  constructor
  · simp only [ParseKLELayout, unmarshalArr, List.foldl, stepRow, stepItem, kleInitState]
    norm_num
  · have hx : jlookupNum (str "x") [(str "w", JValue.num 2)] = none := rfl
    have hy : jlookupNum (str "y") [(str "w", JValue.num 2)] = none := rfl
    have hw : jlookupNum (str "w") [(str "w", JValue.num 2)] = some 2 := rfl
    have hh : jlookupNum (str "h") [(str "w", JValue.num 2)] = none := rfl
    have hr : jlookupNum (str "r") [(str "w", JValue.num 2)] = none := rfl
    have hrx : jlookupNum (str "rx") [(str "w", JValue.num 2)] = none := rfl
    have hry : jlookupNum (str "ry") [(str "w", JValue.num 2)] = none := rfl
    simp only [ParseKLELayout, unmarshalArr, List.foldl, stepRow, stepItem, applyMods,
      modField, hx, hy, hw, hh, hr, hrx, hry, kleInitState]
    norm_num

/-- C6, claim as stated is false: the number-key branch of `formatKey`
fires on every two-character identifier starting with `N`, not only on
`N` plus a digit, so `NA` becomes `A` instead of being returned
unchanged. -/
theorem c6_formatKey_counterexample :
    formatKey (str "NA") = str "A" ∧ formatKey (str "NA") ≠ str "NA" := by
  constructor
  · decide
  · decide

/-- C6 (amended): the number-key branch of `formatKey` fires on every
identifier of length exactly 2 that starts with `N` — whatever the second
character is — and returns the second character alone; in particular a
digit (`N1` → `1`) but equally `NA` → `A`. -/
theorem c6_formatKey_n_branch (key : Str) (h1 : key.take 1 = ['N'])
    (h2 : key.length = 2) : formatKey key = key.drop 1 := by
  match key, h2 with
  | [a, b], _ =>
    have ha : a = 'N' := by simpa using h1
    subst ha
    show formatKeyFuel 2 ['N', b] = ['N', b].drop 1
    simp [formatKeyFuel, modMatch, formatKeyBase]

/-- Concrete instance of the amended C6 theorem at `N9`. -/
theorem c6_formatKey_n_branch_witness :
    (str "N9").take 1 = ['N'] ∧ formatKey (str "N9") = str "9" :=
  ⟨by decide, c6_formatKey_n_branch (str "N9") (by decide) (by decide)⟩

/-! ### Helper lemmas for the modifier-wrapper recursion -/

/-- If the wrapper regex does not match, any amount of fuel yields the
base formatting. -/
theorem formatKeyFuel_of_none {key : Str} (h : modMatch key = none) :
    ∀ f, formatKeyFuel f key = formatKeyBase key := by
  intro f
  cases f with
  | zero => rfl
  | succ n => simp [formatKeyFuel, h]

/-- A successful wrapper match captures a non-empty middle four characters
shorter than the input. -/
theorem modMatch_length {s : Str} {m : ModCode} {mid : Str}
    (h : modMatch s = some (m, mid)) : mid.length + 4 = s.length ∧ 0 < mid.length := by
  match s with
  | [] => simp [modMatch] at h
  | [a] => simp [modMatch] at h
  | [a, b] => simp [modMatch] at h
  | a :: b :: c :: rest =>
    simp only [modMatch] at h
    by_cases hc : c = '('
    · rw [if_pos hc] at h
      cases hmo : modOfChars a b with
      | none => rw [hmo] at h; simp at h
      | some m2 =>
        cases hgl : rest.getLast? with
        | none => rw [hmo, hgl] at h; simp at h
        | some d =>
          rw [hmo, hgl] at h
          dsimp only at h
          by_cases hd : d = ')'
          · rw [if_pos hd] at h
            by_cases hcond : 0 < rest.dropLast.length ∧ rest.dropLast.all (fun x => x ≠ '\n')
            · rw [if_pos hcond] at h
              obtain ⟨h1, h2⟩ := Option.some.injEq _ _ ▸ h
              cases h
              have hne : rest ≠ [] := by
                intro hr
                rw [hr] at hgl
                simp at hgl
              constructor
              · simp only [List.length_cons, List.length_dropLast]
                have := List.length_pos.mpr hne
                omega
              · exact hcond.1
            · rw [if_neg hcond] at h; simp at h
          · rw [if_neg hd] at h; simp at h
    · rw [if_neg hc] at h; simp at h

/-- Fuel does not matter as long as it is at least the key's length. -/
theorem formatKeyFuel_stable (L : Nat) : ∀ key : Str, key.length ≤ L →
    ∀ n m, key.length ≤ n → key.length ≤ m →
    formatKeyFuel n key = formatKeyFuel m key := by
  induction L with
  | zero =>
    intro key hL n m _ _
    have hk : key = [] := List.length_eq_zero.mp (Nat.le_zero.mp hL)
    subst hk
    have hnone : modMatch [] = none := rfl
    rw [formatKeyFuel_of_none hnone, formatKeyFuel_of_none hnone]
  | succ L ih =>
    intro key hL n m hn hm
    cases hmm : modMatch key with
    | none => rw [formatKeyFuel_of_none hmm, formatKeyFuel_of_none hmm]
    | some p =>
      obtain ⟨mo, mid⟩ := p
      obtain ⟨hlen, hpos⟩ := modMatch_length hmm
      obtain ⟨n2, rfl⟩ : ∃ n2, n = n2 + 1 := ⟨n - 1, by omega⟩
      obtain ⟨m2, rfl⟩ : ∃ m2, m = m2 + 1 := ⟨m - 1, by omega⟩
      simp only [formatKeyFuel, hmm]
      congr 1
      exact ih mid (by omega) n2 m2 (by omega) (by omega)

/-- Unfolding `formatKey` one wrapper at a time. -/
theorem formatKey_of_modMatch {s : Str} {m : ModCode} {mid : Str}
    (h : modMatch s = some (m, mid)) :
    formatKey s = modPrefixTag m ++ formatKey mid := by
  obtain ⟨hlen, hpos⟩ := modMatch_length h
  rw [formatKey]
  obtain ⟨k, hk⟩ : ∃ k, s.length = k + 1 := ⟨s.length - 1, by omega⟩
  rw [hk]
  simp only [formatKeyFuel, h]
  congr 1
  rw [formatKey]
  exact formatKeyFuel_stable mid.length mid le_rfl k mid.length (by omega) le_rfl

/-- The wrapper regex matches a one-level wrap exactly, capturing the
wrapped text, provided that text is non-empty and newline-free. -/
theorem modMatch_wrap (m : ModCode) (w : Str) (hne : w ≠ [])
    (hnl : ∀ c ∈ w, c ≠ '\n') :
    modMatch (modChars m ++ '(' :: (w ++ [')'])) = some (m, w) := by
  have hchars : ∃ a b, modChars m = [a, b] ∧ modOfChars a b = some m := by
    cases m <;> exact ⟨_, _, rfl, rfl⟩
  obtain ⟨a, b, hab, hmo⟩ := hchars
  rw [hab]
  show modMatch (a :: b :: '(' :: (w ++ [')'])) = some (m, w)
  simp only [modMatch, if_pos rfl, hmo]
  rw [List.getLast?_concat]
  dsimp only
  rw [if_pos rfl, List.dropLast_concat]
  have hcond : 0 < w.length ∧ (w.all fun x => decide (x ≠ '\n')) = true := by
    constructor
    · exact List.length_pos.mpr hne
    · rw [List.all_eq_true]
      intro c hc
      exact decide_eq_true (hnl c hc)
  rw [if_pos hcond]
  simp

/-- The wrapped text of a modifier stack is newline-free when the
innermost code is. -/
theorem wrapMods_no_newline (ms : List ModCode) (inner : Str)
    (hnl : ∀ c ∈ inner, c ≠ '\n') : ∀ c ∈ wrapMods ms inner, c ≠ '\n' := by
  induction ms with
  | nil => exact hnl
  | cons m ms ih =>
    intro c hc
    simp only [wrapMods, List.foldr_cons] at hc
    rw [List.mem_append] at hc
    cases hc with
    | inl h =>
      have : c ≠ '\n' := by
        cases m <;> simp [modChars] at h <;> rcases h with rfl | rfl <;> decide
      exact this
    | inr h =>
      rw [List.mem_cons] at h
      cases h with
      | inl h => subst h; decide
      | inr h =>
        rw [List.mem_append] at h
        cases h with
        | inl h => exact ih c h
        | inr h =>
          rw [List.mem_singleton] at h
          subst h
          decide

/-- A modifier stack wraps a non-empty code into a non-empty text. -/
theorem wrapMods_ne_nil (ms : List ModCode) (inner : Str) (hne : inner ≠ []) :
    wrapMods ms inner ≠ [] := by
  cases ms with
  | nil => exact hne
  | cons m ms =>
    show modChars m ++ '(' :: (wrapMods ms inner ++ [')']) ≠ []
    simp

/-- C5: `formatKey` on a key code wrapped in `N` levels of modifiers
returns the `N` prefix tags in outer-to-inner order followed by the
formatted innermost code; left and right variants of one modifier produce
the same tag by definition of `modPrefixTag`. -/
theorem c5_formatKey_mod_nesting (ms : List ModCode) (inner : Str)
    (hne : inner ≠ []) (hnl : ∀ c ∈ inner, c ≠ '\n') :
    formatKey (wrapMods ms inner) = (ms.map modPrefixTag).flatten ++ formatKey inner := by
  induction ms with
  | nil => simp [wrapMods]
  | cons m ms ih =>
    have hmm : modMatch (wrapMods (m :: ms) inner) = some (m, wrapMods ms inner) := by
      show modMatch (modChars m ++ '(' :: (wrapMods ms inner ++ [')'])) =
        some (m, wrapMods ms inner)
      exact modMatch_wrap m (wrapMods ms inner) (wrapMods_ne_nil ms inner hne)
        (wrapMods_no_newline ms inner hnl)
    rw [formatKey_of_modMatch hmm, ih]
    simp [List.append_assoc]

/-- Concrete instance of C5: the doubly wrapped `LC(LS(A))` formats to
`C-S-A`, collapsing would-be right-hand variants identically. -/
theorem c5_formatKey_mod_nesting_witness :
    str "A" ≠ [] ∧ formatKey (str "LC(LS(A))") = str "C-S-A" := by
  constructor
  · decide
  · have h := c5_formatKey_mod_nesting [ModCode.LC, ModCode.LS] (str "A")
      (by decide) (by decide)
    exact h.trans (by decide)

/-- C7: `formatLayerShort` is total and case-insensitive.  It agrees with
the spec-side table description `layerShortSpec` on every input — the
named table maps DEFAULT/0, LOWER/1, RAISE/2, FN/3, SYSTEM/4 to D, L, R,
F, S, any other non-empty reference maps to its upper-cased first
character, and the empty reference maps to `?` — and inputs equal up to
letter case map to the same output. -/
theorem c7_formatLayerShort_total :
    (∀ layer, formatLayerShort layer = layerShortSpec layer) ∧
    (∀ l1 l2 : Str, toUpper l1 = toUpper l2 →
      formatLayerShort l1 = formatLayerShort l2) := by
  constructor
  · intro layer
    unfold formatLayerShort layerShortSpec
    split_ifs with h1 h2 h3 h4 h5 h6
    · rcases h1 with h | h <;> rw [h] <;> rfl
    · rcases h2 with h | h <;> rw [h] <;> rfl
    · rcases h3 with h | h <;> rw [h] <;> rfl
    · rcases h4 with h | h <;> rw [h] <;> rfl
    · rcases h5 with h | h <;> rw [h] <;> rfl
    · rw [not_or] at h1 h2 h3 h4 h5
      have e1 : (toUpper layer == str "DEFAULT") = false := beq_eq_false_iff_ne.mpr h1.1
      have e2 : (toUpper layer == str "0") = false := beq_eq_false_iff_ne.mpr h1.2
      have e3 : (toUpper layer == str "LOWER") = false := beq_eq_false_iff_ne.mpr h2.1
      have e4 : (toUpper layer == str "1") = false := beq_eq_false_iff_ne.mpr h2.2
      have e5 : (toUpper layer == str "RAISE") = false := beq_eq_false_iff_ne.mpr h3.1
      have e6 : (toUpper layer == str "2") = false := beq_eq_false_iff_ne.mpr h3.2
      have e7 : (toUpper layer == str "FN") = false := beq_eq_false_iff_ne.mpr h4.1
      have e8 : (toUpper layer == str "3") = false := beq_eq_false_iff_ne.mpr h4.2
      have e9 : (toUpper layer == str "SYSTEM") = false := beq_eq_false_iff_ne.mpr h5.1
      have e10 : (toUpper layer == str "4") = false := beq_eq_false_iff_ne.mpr h5.2
      simp only [layerShortTable, List.lookup, e1, e2, e3, e4, e5, e6, e7, e8, e9, e10]
      cases layer with
      | nil => simp at h6
      | cons c cs => simp [toUpper]
    · cases layer with
      | nil => rfl
      | cons c cs => simp at h6
  · intro l1 l2 h
    have hlen : l1.length = l2.length := by
      have h2 := congrArg List.length h
      simpa [toUpper] using h2
    have htake : toUpper (l1.take 1) = toUpper (l2.take 1) := by
      simp only [toUpper] at h ⊢
      rw [List.map_take, List.map_take, h]
    unfold formatLayerShort
    rw [h, hlen, htake]

/-- Concrete instance of C7's case-insensitivity at `lower` / `LOWER`. -/
theorem c7_formatLayerShort_total_witness :
    toUpper (str "lower") = toUpper (str "LOWER") ∧
    formatLayerShort (str "lower") = formatLayerShort (str "LOWER") :=
  ⟨by decide, c7_formatLayerShort_total.2 (str "lower") (str "LOWER") (by decide)⟩

/-- C3, claim as stated is false: empty words produced by consecutive
underscores are not skipped — `formatLayerName` keeps them, and the join
then emits a separator space on each side of the empty word, so `a__b`
becomes `A  B` (two spaces) rather than `A B`. -/
theorem c3_formatLayerName_counterexample :
    formatLayerName (str "a__b") = str "A  B" ∧ str "A  B" ≠ str "A B" := by
  constructor
  · decide
  · decide

/-- C3 (amended): the layer-name transformation strips a trailing
`_layer` suffix, splits on `_`, title-cases each underscore-separated
word (first letter upper, rest lower), and rejoins the words — including
empty words left as empty words, so consecutive, leading, or trailing
underscores do produce extra spaces — with a single space between each
pair of consecutive words, as the spec-side `layerNameSpec` describes. -/
theorem c3_formatLayerName_spec (name : Str) :
    formatLayerName name = layerNameSpec name := by
  have h6 : (str "_layer").length = 6 := rfl
  have hrev : (name.reverse.drop 6).reverse = name.take (name.length - 6) := by
    rw [List.reverse_drop, List.reverse_reverse, List.length_reverse]
  have hsuf : ((str "_layer").isSuffixOf name = true) ↔
      name.drop (name.length - 6) = str "_layer" := by
    rw [List.isSuffixOf_iff_suffix, List.suffix_iff_eq_drop, h6]
    exact eq_comm
  have hbase : trimSuffixGo (str "_layer") name =
      (if (str "_layer").isSuffixOf name then (name.reverse.drop 6).reverse else name) := by
    rw [trimSuffixGo, h6]
    by_cases h : name.drop (name.length - 6) = str "_layer"
    · rw [if_pos h, if_pos (hsuf.mpr h), hrev]
    · rw [if_neg h, if_neg (fun hc => h (hsuf.mp hc))]
  have htitle : titleGo = (fun w : Str =>
      match w with
      | [] => ([] : Str)
      | c :: cs => c.toUpper :: toLower cs) := by
    funext w
    cases w with
    | nil => rfl
    | cons c cs => simp [titleGo, toUpper, toLower]
  simp only [formatLayerName, layerNameSpec, List.intercalate, hbase, htitle]

/-- Concrete instance of the amended C3 theorem at `base_layer`. -/
theorem c3_formatLayerName_spec_witness :
    formatLayerName (str "base_layer") = layerNameSpec (str "base_layer") :=
  c3_formatLayerName_spec (str "base_layer")

/-! ### Helper lemmas for the layout reconstruction -/

/-- One field block never touches the key counter when its update does
not. -/
theorem modField_keyIndex (k : Str) (fieldList : List (Str × JValue))
    (f : KState → ℚ → KState) (st : KState)
    (hf : ∀ st2 q, (f st2 q).keyIndex = st2.keyIndex) :
    (modField k fieldList f st).keyIndex = st.keyIndex := by
  unfold modField
  cases jlookupNum k fieldList with
  | none => rfl
  | some q => exact hf st q

/-- A modifier object never touches the key counter. -/
theorem applyMods_keyIndex (st : KState) (fieldList : List (Str × JValue)) :
    (applyMods st fieldList).keyIndex = st.keyIndex := by
  simp only [applyMods]
  iterate 7 rw [modField_keyIndex]
  all_goals intro st2 q
  all_goals rfl

/-- One item step preserves the index invariant. -/
theorem stepItem_keysIdxOk (p : KState × List PhysicalKey) (item : JValue)
    (h : keysIdxOk p) : keysIdxOk (stepItem p item) := by
  obtain ⟨st, acc⟩ := p
  obtain ⟨h1, h2⟩ := h
  cases item with
  | null => exact ⟨h1, h2⟩
  | bool b => exact ⟨h1, h2⟩
  | num q => exact ⟨h1, h2⟩
  | arr items => exact ⟨h1, h2⟩
  | obj fieldList =>
    refine ⟨?_, h2⟩
    show (applyMods st fieldList).keyIndex = acc.length
    rw [applyMods_keyIndex]
    exact h1
  | str s =>
    have hpair : stepItem (st, acc) (JValue.str s) =
        ({ st with x := st.x + st.w, w := 1, h := 1, keyIndex := st.keyIndex + 1 },
         acc ++ [⟨st.x, st.y - 1, st.w, st.h, st.r, st.rx, st.ry, st.keyIndex⟩]) := rfl
    rw [keysIdxOk, hpair]
    refine ⟨?_, ?_⟩
    · show st.keyIndex + 1 =
        (acc ++ [(⟨st.x, st.y - 1, st.w, st.h, st.r, st.rx, st.ry, st.keyIndex⟩ :
          PhysicalKey)]).length
      rw [List.length_append, h1]
      rfl
    · intro i hi
      by_cases hlt : i < acc.length
      · rw [List.getElem_append_left hlt]
        exact h2 i hlt
      · have hi2 : i < acc.length + 1 := by
          rw [List.length_append] at hi
          simpa using hi
        have hieq : i = acc.length := by omega
        rw [List.getElem_concat_length acc _ i hieq]
        show st.keyIndex = i
        rw [h1, hieq]

/-- Folding the items of a row preserves the index invariant. -/
theorem foldl_stepItem_keysIdxOk (items : List JValue) :
    ∀ p, keysIdxOk p → keysIdxOk (items.foldl stepItem p) := by
  induction items with
  | nil => intro p h; exact h
  | cons it its ih => intro p h; exact ih _ (stepItem_keysIdxOk p it h)

/-- One row step preserves the index invariant: the row-start reset
touches neither the key counter nor the emitted keys. -/
theorem stepRow_keysIdxOk (p : KState × List PhysicalKey) (row : JValue)
    (h : keysIdxOk p) : keysIdxOk (stepRow p row) := by
  cases row with
  | null => exact h
  | bool b => exact h
  | num q => exact h
  | str s => exact h
  | obj fieldList => exact h
  | arr items => exact foldl_stepItem_keysIdxOk items _ ⟨h.1, h.2⟩

/-- Folding all rows preserves the index invariant. -/
theorem foldl_stepRow_keysIdxOk (rows : List JValue) :
    ∀ p, keysIdxOk p → keysIdxOk (rows.foldl stepRow p) := by
  induction rows with
  | nil => intro p h; exact h
  | cons r rs ih => intro p h; exact ih _ (stepRow_keysIdxOk p r h)

/-- C8: for every layout description on which `ParseKLELayout` succeeds,
the emitted keys satisfy `Keys[i].index = i`: indexes are dense, unique,
start at 0, and follow the order key placeholders are encountered. -/
theorem c8_layout_index_dense (v : JValue) (name : Str) (l : Layout)
    (h : ParseKLELayout v name = .ok l) :
    ∀ i, (hi : i < l.keys.length) → (l.keys[i]).index = i := by
  have hinit : keysIdxOk (kleInitState, ([] : List PhysicalKey)) := by
    refine ⟨rfl, ?_⟩
    intro i hi
    simp at hi
  cases v with
  | null =>
    have hl : l = ⟨name, []⟩ := by
      have h2 := h
      simp only [ParseKLELayout, unmarshalArr, List.foldl] at h2
      exact (Except.ok.injEq _ _ ▸ h2).symm
    subst hl
    intro i hi
    simp at hi
  | bool b => simp [ParseKLELayout, unmarshalArr] at h
  | num q => simp [ParseKLELayout, unmarshalArr] at h
  | str s => simp [ParseKLELayout, unmarshalArr] at h
  | obj fieldList => simp [ParseKLELayout, unmarshalArr] at h
  | arr rows =>
    have hl : l = ⟨name, (rows.foldl stepRow (kleInitState, [])).2⟩ := by
      have h2 := h
      simp only [ParseKLELayout, unmarshalArr] at h2
      exact (Except.ok.injEq _ _ ▸ h2).symm
    subst hl
    exact (foldl_stepRow_keysIdxOk rows (kleInitState, []) hinit).2

/-- Concrete instance of C8 on a two-key layout. -/
theorem c8_layout_index_dense_witness :
    ParseKLELayout (.arr [.arr [.str (str "A"), .str (str "B")]]) (str "n") =
      .ok ⟨str "n", [⟨0, 0, 1, 1, 0, 0, 0, 0⟩, ⟨1, 0, 1, 1, 0, 0, 0, 1⟩]⟩ ∧
    (([⟨0, 0, 1, 1, 0, 0, 0, 0⟩, ⟨1, 0, 1, 1, 0, 0, 0, 1⟩] : List PhysicalKey)[1]).index = 1 := by
  have hok : ParseKLELayout (.arr [.arr [.str (str "A"), .str (str "B")]]) (str "n") =
      .ok ⟨str "n", [⟨0, 0, 1, 1, 0, 0, 0, 0⟩, ⟨1, 0, 1, 1, 0, 0, 0, 1⟩]⟩ := by
    simp only [ParseKLELayout, unmarshalArr, List.foldl, stepRow, stepItem, kleInitState]
    norm_num
  exact ⟨hok, c8_layout_index_dense _ _ _ hok 1 (by norm_num)⟩

/-! ### Helper lemmas for C9 and C10 -/

/-- A successful object lookup returns a stored value. -/
theorem jlookup_mem {k : Str} {v : JValue} : ∀ {l : List (Str × JValue)},
    jlookup k l = some v → ∃ k2, (k2, v) ∈ l := by
  intro l
  induction l with
  | nil => intro h; simp [jlookup] at h
  | cons p rest ih =>
    intro h
    obtain ⟨k2, v2⟩ := p
    rw [jlookup] at h
    cases hr : jlookup k rest with
    | some r =>
      rw [hr] at h
      obtain rfl : r = v := by simpa using h
      obtain ⟨k3, hk3⟩ := ih hr
      exact ⟨k3, List.mem_cons_of_mem _ hk3⟩
    | none =>
      rw [hr] at h
      by_cases hk : k2 = k
      · rw [if_pos hk] at h
        obtain rfl : v2 = v := by simpa using h
        exact ⟨k2, List.mem_cons_self _ _⟩
      · rw [if_neg hk] at h
        simp at h

/-- When no field of the object is a JSON number, every numeric lookup
fails. -/
theorem jlookupNum_eq_none {fieldList : List (Str × JValue)}
    (hall : ∀ p ∈ fieldList, jIsNum p.2 = false) (k : Str) :
    jlookupNum k fieldList = none := by
  rw [jlookupNum]
  cases hl : jlookup k fieldList with
  | none => rfl
  | some v =>
    obtain ⟨k2, hmem⟩ := jlookup_mem hl
    have hv := hall (k2, v) hmem
    cases v <;> simp [jIsNum] at hv ⊢

/-- The binding regex cannot match at a character other than `&`. -/
theorem matchLen_none {c : Char} (rest : Str) (h : c ≠ '&') :
    matchLen (c :: rest) = none := by
  simp [matchLen, h]

/-- A text without `&` contains no binding match. -/
theorem scanBindings_eq_nil : ∀ n i (l : Str), (∀ c ∈ l, c ≠ '&') →
    scanBindings n i l = [] := by
  intro n
  induction n with
  | zero => intro i l h; rfl
  | succ n ih =>
    intro i l h
    cases l with
    | nil => rfl
    | cons c rest =>
      have hc : c ≠ '&' := h c (List.mem_cons_self _ _)
      simp only [scanBindings, matchLen_none rest hc]
      exact ih (i + 1) rest (fun c2 h2 => h c2 (List.mem_cons_of_mem _ h2))

/-- Trimming only drops characters. -/
theorem mem_of_mem_trimSpace {c : Char} {s : Str} (h : c ∈ trimSpace s) : c ∈ s := by
  rw [trimSpace, List.mem_reverse] at h
  have h2 := (List.dropWhile_sublist isGoSpace).subset h
  rw [List.mem_reverse] at h2
  exact (List.dropWhile_sublist isGoSpace).subset h2

/-- C9: `ParseKLELayout` errors exactly on the inputs `json.Unmarshal`
rejects for the `[]interface{}` target — a top-level object, string,
number or boolean — and succeeds on every top-level array; a non-array
top-level item at any position is skipped with the cursor state unchanged;
and a modifier-record whose fields hold no JSON number leaves the state
unchanged. -/
theorem c9_parse_error_iff :
    (∀ v name, (∃ l, ParseKLELayout v name = .ok l) ↔ jsonNotArray v = false) ∧
    (∀ (st : KState) (acc : List PhysicalKey) (v : JValue), jIsArr v = false →
      stepRow (st, acc) v = (st, acc)) ∧
    (∀ (st : KState) (fieldList : List (Str × JValue)),
      (∀ p ∈ fieldList, jIsNum p.2 = false) → applyMods st fieldList = st) := by
  refine ⟨?_, ?_, ?_⟩
  · intro v name
    cases v <;> simp [ParseKLELayout, unmarshalArr, jsonNotArray]
  · intro st acc v h
    cases v with
    | arr items => simp [jIsArr] at h
    | null => rfl
    | bool b => rfl
    | num q => rfl
    | str s => rfl
    | obj fieldList => rfl
  · intro st fieldList hall
    have hn : ∀ k, jlookupNum k fieldList = none := jlookupNum_eq_none hall
    simp only [applyMods, modField, hn]

/-- Concrete instances of C9's three parts. -/
theorem c9_parse_error_iff_witness :
    ((∃ l, ParseKLELayout (JValue.num 3) (str "n") = .ok l) ↔
      jsonNotArray (JValue.num 3) = false) ∧
    (jIsArr (JValue.str (str "meta")) = false ∧
      stepRow (kleInitState, []) (JValue.str (str "meta")) = (kleInitState, [])) ∧
    ((∀ p ∈ [(str "k", JValue.str (str "v"))], jIsNum p.2 = false) ∧
      applyMods kleInitState [(str "k", JValue.str (str "v"))] = kleInitState) := by
  refine ⟨c9_parse_error_iff.1 (JValue.num 3) (str "n"), ⟨by decide, ?_⟩, ⟨?_, ?_⟩⟩
  · exact c9_parse_error_iff.2.1 kleInitState [] (JValue.str (str "meta")) (by decide)
  · intro p hp
    simp only [List.mem_singleton] at hp
    subst hp
    rfl
  · refine c9_parse_error_iff.2.2 kleInitState [(str "k", JValue.str (str "v"))] ?_
    intro p hp
    simp only [List.mem_singleton] at hp
    subst hp
    rfl

/-- Every layer the scan loop appends carries the freshly-made empty
custom-names map. -/
theorem parseLoop_customNames : ∀ (n : Nat) (content : Str) (idx : Nat)
    (acc : List Layer), (∀ la ∈ acc, la.customNames = []) →
    ∀ la ∈ parseLoop n content idx acc, la.customNames = [] := by
  intro n
  induction n with
  | zero => intro content idx acc hacc la hla; exact hacc la hla
  | succ n ih =>
    intro content idx acc hacc la hla
    rw [parseLoop] at hla
    cases h1 : listIndexOf (str "ZMK_LAYER") (content.drop idx) with
    | none =>
      rw [h1] at hla
      exact hacc la hla
    | some s0 =>
      rw [h1] at hla
      dsimp only at hla
      cases h2 : listIndexOf (str "(") (content.drop (s0 + idx)) with
      | none =>
        rw [h2] at hla
        exact hacc la hla
      | some p0 =>
        rw [h2] at hla
        dsimp only at hla
        cases h3 : findMatchingParen content (p0 + (s0 + idx)) with
        | none =>
          rw [h3] at hla
          exact ih content _ acc hacc la hla
        | some parenEnd =>
          rw [h3] at hla
          dsimp only at hla
          cases h4 : listIndexOf (str ",")
              ((content.drop (p0 + (s0 + idx) + 1)).take (parenEnd - (p0 + (s0 + idx) + 1))) with
          | none =>
            rw [h4] at hla
            exact ih content _ acc hacc la hla
          | some commaIdx =>
            rw [h4] at hla
            dsimp only at hla
            refine ih content _ _ ?_ la hla
            intro la2 hla2
            rw [List.mem_append] at hla2
            cases hla2 with
            | inl h => exact hacc la2 h
            | inr h =>
              rw [List.mem_singleton] at h
              subst h
              rfl

/-- C10: every `Keymap` from `ParseKeymap` starts from the initialised
empty layer list — in particular it is empty when no macro occurrence
exists; every produced layer carries the freshly-made empty custom-names
map; and the key-label list of a layer whose argument text contains no
`&` character is empty. -/
theorem c10_keymap_invariants :
    (∀ content name, listIndexOf (str "ZMK_LAYER") content = none →
      (ParseKeymap content name).1.layers = []) ∧
    (∀ content name, ∀ la ∈ (ParseKeymap content name).1.layers,
      la.customNames = []) ∧
    (∀ kc : Str, (∀ c ∈ kc, c ≠ '&') → parseKeysFlat kc = []) := by
  refine ⟨?_, ?_, ?_⟩
  · intro content name h
    show parseLoop (content.length + 1 + 1) content 0 [] = []
    rw [parseLoop, List.drop_zero, h]
  · intro content name la hla
    refine parseLoop_customNames _ content 0 [] ?_ la hla
    intro la2 hla2
    simp at hla2
  · intro kc h
    have hmap : ∀ c ∈ kc.map (fun c => if c = '\n' then ' '
        else if c = '\t' then ' ' else c), c ≠ '&' := by
      intro c hc
      rw [List.mem_map] at hc
      obtain ⟨c0, hc0, rfl⟩ := hc
      by_cases h1 : c0 = '\n'
      · simp [h1]
      · by_cases h2 : c0 = '\t'
        · simp [h1, h2]
        · simpa [h1, h2] using h c0 hc0
    show tokenize _ = []
    rw [tokenize]
    have htrim : ∀ c ∈ trimSpace (kc.map (fun c => if c = '\n' then ' '
        else if c = '\t' then ' ' else c)), c ≠ '&' :=
      fun c hc => hmap c (mem_of_mem_trimSpace hc)
    rw [scanBindings_eq_nil _ 0 _ htrim]
    rfl

/-- Concrete instances of C10's three parts. -/
theorem c10_keymap_invariants_witness :
    (listIndexOf (str "ZMK_LAYER") (str "nothing here") = none ∧
      (ParseKeymap (str "nothing here") (str "kb")).1.layers = []) ∧
    ((∀ c ∈ str "&none only words", c ≠ '&') = False ∧
      (∀ c ∈ str "no bindings", c ≠ '&') ∧ parseKeysFlat (str "no bindings") = []) := by
  refine ⟨⟨by decide, c10_keymap_invariants.1 (str "nothing here") (str "kb") (by decide)⟩,
    ⟨by decide, by decide, c10_keymap_invariants.2.2 (str "no bindings") (by decide)⟩⟩
